import Mathlib

/-!
# Verification of the LC-3 disassembler core (`lc3c.cpp`)

Shallow embedding of the instruction decoder/formatter: bit-field
extraction (`getBits`, `getBit`), sign extension (`sext`), and the three
renderings (`binaryString`, `hexString`, `assemblyString`) of the
`Instruction` struct.  Machine integers (`uint16_t`, `int16_t`, 32-bit
`int`) are modelled as `Nat`/`Int` with explicit `% 2 ^ 16` / `% 2 ^ 32`
wrapping where the C code wraps.
-/

namespace lc3

/-- Source `lc3::getBits(op, from, to)`: the mask is computed in 32-bit `int`
arithmetic (`~(0xFFFF << ((from + 1) - to))`) and truncated to `uint16_t`;
the result is `(op >> to) & mask`.  The `op` parameter is a `uint16_t`,
so it is truncated at entry. -/
def getBits (op f t : Nat) : Nat :=
  let mask := (2 ^ 32 - 1 - (0xFFFF <<< (f + 1 - t)) % 2 ^ 32) % 2 ^ 16
  ((op % 2 ^ 16) >>> t) &&& mask

/-- Source `lc3::getBit(op, bit)`: `(op >> bit) & 1`, as a boolean. -/
def getBit (op bit : Nat) : Bool :=
  ((op % 2 ^ 16) >>> bit) &&& 1 != 0

/-- Conversion of an integer value to `int16_t` (two's-complement wrap,
as on the compilation target): keep the low 16 bits and reinterpret
values `≥ 2 ^ 15` as negative. -/
def toInt16 (n : Nat) : Int :=
  if n % 2 ^ 16 < 2 ^ 15 then ((n % 2 ^ 16 : Nat) : Int)
  else ((n % 2 ^ 16 : Nat) : Int) - 2 ^ 16

/-- Source `lc3::sext(op, bitlength)`: if any bit at or above `bitlength - 1` of
the `uint16_t` argument is set, return `(0xFFFF << bitlength) | op`
(computed in 32-bit `int`, converted to `int16_t`), else return `op`
converted to `int16_t`. -/
def sext (op bitlength : Nat) : Int :=
  if (op % 2 ^ 16) >>> (bitlength - 1) != 0 then
    toInt16 ((0xFFFF <<< bitlength) % 2 ^ 32 ||| (op % 2 ^ 16))
  else
    toInt16 (op % 2 ^ 16)

/-- The `lc3::Instruction` struct: the raw 16-bit word and the opcode
field `name` computed at construction. -/
structure Instruction where
  name : Nat
  instruction : Nat

/-- The `Instruction(UInt instruction)` constructor:
`name(getBits(instruction, 16, 12)), instruction(instruction)`; the
argument is a `uint16_t`, so it is truncated at entry. -/
def Instruction.ofWord (w : Nat) : Instruction :=
  ⟨getBits (w % 2 ^ 16) 16 12, w % 2 ^ 16⟩

/-- The loop body of `Instruction::binaryString`: test bit `0x8000`,
emit `'1'`/`'0'`, shift the `uint16_t` accumulator left; `k` counts the
remaining iterations (16 at the start). -/
def binChars : Nat → Nat → String
  | _, 0 => ""
  | insn, k + 1 =>
    (if insn &&& 0x8000 != 0 then "1" else "0")
      ++ binChars ((insn <<< 1) % 2 ^ 16) k

/-- Source `Instruction::binaryString()`: 16 iterations of the bit-printing
loop. -/
def Instruction.binaryString (i : Instruction) : String :=
  binChars i.instruction 16

/-- Uppercase hexadecimal digit for `n < 16` (`'0'`–`'9'`, `'A'`–`'F'`),
as produced by `printf`'s `%X` and by `std::uppercase << std::hex`. -/
def hexDigitU (n : Nat) : Char :=
  if n < 10 then Char.ofNat (48 + n) else Char.ofNat (55 + n)

/-- Source `Instruction::hexString()`: models `sprintf(buf, "x%04X", instruction)`
for a `uint16_t` argument, which always prints exactly four uppercase,
zero-padded hexadecimal digits after the `x`. -/
def Instruction.hexString (i : Instruction) : String :=
  String.mk ['x', hexDigitU (i.instruction / 4096 % 16),
             hexDigitU (i.instruction / 256 % 16),
             hexDigitU (i.instruction / 16 % 16),
             hexDigitU (i.instruction % 16)]

/-- The `for (int i = 0; i < spaces; i++) insn += " ";` padding loop of
the BR case. -/
def spacesStr : Nat → String
  | 0 => ""
  | k + 1 => " " ++ spacesStr k

/-- Unpadded uppercase hexadecimal digits of `n` (most significant
first), with enough fuel for any `uint16_t` value. -/
def hexDigitsU : Nat → Nat → List Char
  | 0, _ => []
  | _ + 1, 0 => []
  | fuel + 1, n + 1 =>
    hexDigitsU fuel ((n + 1) / 16) ++ [hexDigitU ((n + 1) % 16)]

/-- Models `ostringstream << uppercase << hex << n` for the TRAP vector:
uppercase hexadecimal, no padding, `0` printed as `"0"`. -/
def toHexU (n : Nat) : String :=
  if n == 0 then "0" else String.mk (hexDigitsU 16 n)

/-- Source `Instruction::assemblyString()`: the switch on the opcode field
`name`, each case built exactly as the C code appends its pieces. -/
def Instruction.assemblyString (i : Instruction) : String :=
  match i.name with
  | 0 =>
    let n := getBit i.instruction 11
    let z := getBit i.instruction 10
    let p := getBit i.instruction 9
    let insn := "BR" ++ (if n then "n" else "") ++ (if z then "z" else "")
      ++ (if p then "p" else "")
    let spaces := 3 - ((if n then 1 else 0) + (if z then 1 else 0)
      + (if p then 1 else 0))
    let offset := sext (getBits i.instruction 8 0) 9
    insn ++ spacesStr spaces ++ "  " ++ "[OFFSET "
      ++ (if offset < 0 then "-" ++ toString (-offset)
          else "+" ++ toString offset) ++ "]"
  | 1 | 5 =>
    let imm := getBit i.instruction 5
    let dest := getBits i.instruction 11 9
    let src1 := getBits i.instruction 8 6
    let insn := (if i.name == 1 then "ADD    " else "AND    ")
      ++ "R" ++ toString dest ++ " R" ++ toString src1
    if imm then
      insn ++ " #" ++ toString (sext (getBits i.instruction 4 0) 5)
    else
      insn ++ " R" ++ toString (getBits i.instruction 2 0)
  | 2 | 10 | 3 | 11 | 14 =>
    let dest := getBits i.instruction 11 9
    let addr := sext (getBits i.instruction 8 0) 9
    let mnem :=
      match i.name with
      | 2 => "LD     "
      | 10 => "LDI    "
      | 3 => "ST     "
      | 11 => "STI    "
      | 14 => "LEA    "
      | _ => ""
    mnem ++ "R" ++ toString dest ++ " [OFFSET "
      ++ (if addr < 0 then "-" ++ toString (-addr)
          else "+" ++ toString addr) ++ "]"
  | 7 | 6 =>
    let reg := getBits i.instruction 11 9
    let breg := getBits i.instruction 8 6
    let off := sext (getBits i.instruction 5 0) 6
    (if i.name == 7 then "STR    " else "LDR    ")
      ++ "R" ++ toString reg ++ " R" ++ toString breg ++ " #"
      ++ (if off < 0 then "-" ++ toString (-off) else "+" ++ toString off)
  | 9 =>
    let dest := getBits i.instruction 11 9
    let src1 := getBits i.instruction 8 6
    "NOT    " ++ "R" ++ toString dest ++ " R" ++ toString src1
  | 4 =>
    let jsrr := getBit i.instruction 11
    let insn := if jsrr then "JSRR   " else "JSR    "
    if !jsrr then
      let offset := sext (getBits i.instruction 10 0) 11
      insn ++ "[OFFSET "
        ++ (if offset < 0 then "-" ++ toString (-offset)
            else "+" ++ toString offset) ++ "]"
    else
      insn ++ " R" ++ toString (getBits i.instruction 8 6)
  | 15 =>
    "TRAP   " ++ "x" ++ toHexU (getBits i.instruction 7 0)
  | 12 => "RET"
  | 8 => "RTI"
  | _ => "[RESERVED]"

/-! ## Spec-side definitions

These are written from the specification text, to state the rendering
claims against: a base-2 reader for the binary string, a hexadecimal
digit reader, and the explicit-sign rendering rule. -/

/-- One step of reading a binary numeral, most significant digit
first. -/
def readBinStep (a : Nat) (c : Char) : Nat :=
  2 * a + if c = '1' then 1 else 0

/-- Read a string as a base-2 numeral (spec side). -/
def readBin (s : String) : Nat :=
  s.data.foldl readBinStep 0

/-- Value of an uppercase hexadecimal digit character (spec side). -/
def readHexDigit (c : Char) : Nat :=
  if 65 ≤ c.toNat then c.toNat - 55 else c.toNat - 48

/-- Uppercase hexadecimal digit test (spec side). -/
def isUpperHexDigit (c : Char) : Bool :=
  (('0' ≤ c) && (c ≤ '9')) || (('A' ≤ c) && (c ≤ 'F'))

/-- The sign rendering rule of the spec: a negative value is `-`
followed by its absolute magnitude, a non-negative value is `+`
followed by the value (zero renders as `+0`). -/
def signRenderSpec (v : Int) : String :=
  if v < 0 then "-" ++ toString (-v) else "+" ++ toString v

/-! ## Helper lemmas about the bit-level primitives -/

/-- The 16-bit truncation of the 32-bit mask `~(0xFFFF << k)` is
`2 ^ k - 1`, for every shift amount the decoder can produce. -/
lemma mask_eq (k : Nat) (h1 : 1 ≤ k) (h2 : k ≤ 16) :
    (2 ^ 32 - 1 - (0xFFFF <<< k) % 2 ^ 32) % 2 ^ 16 = 2 ^ k - 1 := by
  interval_cases k <;> rfl

/-- Lemma: `getBits` extracts bits `f` down to `t`, right-justified and
zero-extended. -/
lemma getBits_eq (w f t : Nat) (hw : w < 2 ^ 16) (ht : t ≤ f) (hf : f ≤ 15) :
    getBits w f t = (w >>> t) % 2 ^ (f - t + 1) := by
  unfold getBits
  rw [Nat.mod_eq_of_lt hw]
  rw [mask_eq (f + 1 - t) (by omega) (by omega)]
  rw [Nat.and_pow_two_sub_one_eq_mod]
  congr 2
  omega

/-- Lemma: `getBits` as plain division and remainder. -/
lemma getBits_div_mod (w f t : Nat) (hw : w < 2 ^ 16) (ht : t ≤ f)
    (hf : f ≤ 15) : getBits w f t = w / 2 ^ t % 2 ^ (f - t + 1) := by
  rw [getBits_eq w f t hw ht hf, Nat.shiftRight_eq_div_pow]

/-- The opcode field stored by the constructor is the top four bits. -/
lemma name_ofWord (w : Nat) (hw : w < 2 ^ 16) :
    (Instruction.ofWord w).name = w / 4096 := by
  show getBits (w % 2 ^ 16) 16 12 = w / 4096
  rw [Nat.mod_eq_of_lt hw]
  unfold getBits
  have hm : (2 ^ 32 - 1 - (0xFFFF <<< (16 + 1 - 12)) % 2 ^ 32) % 2 ^ 16
      = 31 := by rfl
  rw [hm]
  have h31 : w >>> 12 &&& 31 = w >>> 12 % 32 := by
    have h := Nat.and_pow_two_sub_one_eq_mod (w >>> 12) 5
    norm_num at h
    exact h
  simp only [Nat.mod_eq_of_lt hw]
  rw [h31, Nat.shiftRight_eq_div_pow]
  norm_num
  omega

/-- The raw word stored by the constructor. -/
lemma instruction_ofWord (w : Nat) (hw : w < 2 ^ 16) :
    (Instruction.ofWord w).instruction = w := Nat.mod_eq_of_lt hw

/-- Lemma: `toInt16` is the identity below `2 ^ 15`. -/
lemma toInt16_small (n : Nat) (h : n < 2 ^ 15) : toInt16 n = (n : Int) := by
  have h16 : n < 2 ^ 16 := by
    have : (2 : Nat) ^ 15 < 2 ^ 16 := by norm_num
    omega
  unfold toInt16
  rw [Nat.mod_eq_of_lt h16, if_pos h]

/-- Lemma: `sext` on an in-range value with clear sign bit is the identity. -/
lemma sext_nonneg_eq (width v : Nat) (h2 : width ≤ 16)
    (hs : v < 2 ^ (width - 1)) : sext v width = (v : Int) := by
  have hH : (2 : Nat) ^ (width - 1) ≤ 2 ^ 15 :=
    Nat.pow_le_pow_right (by norm_num) (by omega)
  have hv16 : v < 2 ^ 16 := by
    have h16 : (2 : Nat) ^ 15 < 2 ^ 16 := by norm_num
    omega
  have hvv : v % 2 ^ 16 = v := Nat.mod_eq_of_lt hv16
  have hcond : (v >>> (width - 1) != 0) = false := by
    rw [Nat.shiftRight_eq_div_pow]
    simp [Nat.div_eq_of_lt hs]
  unfold sext
  rw [hvv, hcond]
  simp only [Bool.false_eq_true, if_false]
  exact toInt16_small v (by omega)

/-- Lemma: `sext` on an in-range value with set sign bit subtracts `2 ^ width`:
exact two's-complement reinterpretation. -/
lemma sext_neg_eq (width v : Nat) (h1 : 1 ≤ width) (h2 : width ≤ 16)
    (hv : v < 2 ^ width) (hs : 2 ^ (width - 1) ≤ v) :
    sext v width = (v : Int) - ((2 ^ width : Nat) : Int) := by
  have hp : (2 : Nat) ^ width ≤ 2 ^ 16 :=
    Nat.pow_le_pow_right (by norm_num) h2
  have hvv : v % 2 ^ 16 = v := Nat.mod_eq_of_lt (lt_of_lt_of_le hv hp)
  have hW : (2 : Nat) ^ width = 2 * 2 ^ (width - 1) := by
    have hww : width = (width - 1) + 1 := by omega
    conv_lhs => rw [hww]
    rw [pow_succ]
    ring
  have hH : (2 : Nat) ^ (width - 1) ≤ 2 ^ 15 :=
    Nat.pow_le_pow_right (by norm_num) (by omega)
  have hcond : (v >>> (width - 1) != 0) = true := by
    rw [Nat.shiftRight_eq_div_pow]
    simp only [bne_iff_ne, ne_eq]
    intro h0
    have hlt := (Nat.div_eq_zero_iff (Nat.pow_pos (by norm_num))).mp h0
    omega
  have hsl : (0xFFFF <<< width) % 2 ^ 32 = 65535 * 2 ^ width := by
    rw [Nat.shiftLeft_eq]
    apply Nat.mod_eq_of_lt
    calc 65535 * 2 ^ width ≤ 65535 * 2 ^ 16 := Nat.mul_le_mul_left _ hp
      _ < 2 ^ 32 := by norm_num
  have hor : 65535 * 2 ^ width ||| v = 65535 * 2 ^ width + v := by
    have h := Nat.mul_add_lt_is_or hv 65535
    rw [mul_comm (2 ^ width) 65535] at h
    exact h.symm
  unfold sext
  rw [hvv, hcond]
  simp only [eq_self_iff_true, if_true]
  rw [hsl, hor]
  unfold toInt16
  have hp65 : (2 : Nat) ^ width ≤ 65536 := by
    have h16 : (2 : Nat) ^ 16 = 65536 := by norm_num
    omega
  have hH32 : (2 : Nat) ^ (width - 1) ≤ 32768 := by
    have h15 : (2 : Nat) ^ 15 = 32768 := by norm_num
    omega
  have h15 : (2 : Nat) ^ 15 = 32768 := by norm_num
  have h16 : (2 : Nat) ^ 16 = 65536 := by norm_num
  rw [h15, h16]
  generalize hWq : (2 : Nat) ^ width = W at hv hW hp65 ⊢
  generalize hHq : (2 : Nat) ^ (width - 1) = H at hs hW hH32
  have hNmod : (65535 * W + v) % 65536 = 65536 - W + v := by omega
  rw [hNmod, if_neg (by omega)]
  omega

/-! ## Helper lemmas about the string renderings -/

/-- The binary-printing loop emits exactly one character per
iteration. -/
lemma binChars_length : ∀ k insn, (binChars insn k).data.length = k := by
  intro k
  induction k with
  | zero => intro insn; rfl
  | succ k ih =>
    intro insn
    show ((if insn &&& 0x8000 != 0 then "1" else "0")
      ++ binChars ((insn <<< 1) % 2 ^ 16) k).data.length = k + 1
    rw [String.data_append, List.length_append, ih]
    cases h : insn &&& 0x8000 != 0 <;> simp [h] <;> omega

/-- Every character the binary-printing loop emits is a binary
digit. -/
lemma binChars_chars : ∀ k insn c, c ∈ (binChars insn k).data →
    c = '0' ∨ c = '1' := by
  intro k
  induction k with
  | zero => intro insn c hc; simp [binChars] at hc
  | succ k ih =>
    intro insn c hc
    have hc2 : c ∈ ((if insn &&& 0x8000 != 0 then "1" else "0")
        ++ binChars ((insn <<< 1) % 2 ^ 16) k).data := hc
    rw [String.data_append, List.mem_append] at hc2
    rcases hc2 with hc2 | hc2
    · cases h : insn &&& 0x8000 != 0 <;> rw [h] at hc2 <;>
        simp at hc2 <;> simp [hc2]
    · exact ih _ c hc2

/-- The top bit of a 16-bit word, as the branch the loop takes. -/
lemma div_32768_eq_if (insn : Nat) (hins : insn < 2 ^ 16) :
    insn / 32768 = (if insn &&& 0x8000 != 0 then 1 else 0) := by
  have h16 : (2 : Nat) ^ 16 = 65536 := by norm_num
  have htb := Nat.and_two_pow insn 15
  have htd : Nat.testBit insn 15 = decide (insn / 2 ^ 15 % 2 = 1) :=
    Nat.testBit_to_div_mod
  norm_num at htb htd
  cases hdec : insn.testBit 15 with
  | false =>
    rw [hdec] at htb htd
    simp at htb htd
    simp [htb]
    omega
  | true =>
    rw [hdec] at htb htd
    simp at htb htd
    simp [htb]
    omega

/-- Arithmetic core of one binary-printing step. -/
lemma fold_step_arith (k insn acc h : Nat) (hk : k ≤ 15)
    (hins : insn < 2 ^ 16) (hh : insn / 32768 = h) :
    (2 * acc + h) * 2 ^ k + 2 * insn % 2 ^ 16 / 2 ^ (16 - k)
      = acc * 2 ^ (k + 1) + insn / 2 ^ (16 - (k + 1)) := by
  have h16 : (2 : Nat) ^ 16 = 65536 := by norm_num
  have e1 : (16 : Nat) - k = (15 - k) + 1 := by omega
  have e2 : (16 : Nat) - (k + 1) = 15 - k := by omega
  rw [e1, e2]
  have hAB : 2 ^ k * 2 ^ (15 - k) = 32768 := by
    rw [← pow_add, show k + (15 - k) = 15 from by omega]
    norm_num
  have hBpos : 0 < 2 ^ (15 - k) := Nat.pow_pos (by norm_num)
  have hq : insn = h * 32768 + insn % 32768 := by omega
  have h2r : 2 * insn % 2 ^ 16 = 2 * (insn % 32768) := by omega
  rw [h2r, pow_succ]
  have hdivB : 2 * (insn % 32768) / (2 ^ (15 - k) * 2)
      = insn % 32768 / 2 ^ (15 - k) := by
    rw [mul_comm (2 ^ (15 - k)) 2]
    exact Nat.mul_div_mul_left _ _ (by norm_num)
  rw [hdivB]
  have hinsB : insn / 2 ^ (15 - k)
      = h * 2 ^ k + insn % 32768 / 2 ^ (15 - k) := by
    conv_lhs => rw [hq]
    have hrw : h * 32768 = 2 ^ (15 - k) * (h * 2 ^ k) := by
      rw [← hAB]
      ring
    rw [hrw, Nat.mul_add_div hBpos]
  rw [hinsB, pow_succ]
  ring

/-- Reading back the binary-printing loop: `k` iterations print the
top `k` bits of the 16-bit accumulator. -/
lemma binChars_fold : ∀ k, k ≤ 16 → ∀ insn, insn < 2 ^ 16 → ∀ acc,
    List.foldl readBinStep acc (binChars insn k).data
      = acc * 2 ^ k + insn / 2 ^ (16 - k) := by
  intro k
  induction k with
  | zero =>
    intro _ insn hins acc
    have h16 : (2 : Nat) ^ 16 = 65536 := by norm_num
    simp [binChars]
    omega
  | succ k ih =>
    intro hk1 insn hins acc
    have hins' : (insn <<< 1) % 2 ^ 16 < 2 ^ 16 :=
      Nat.mod_lt _ (by norm_num)
    have hsl : insn <<< 1 = 2 * insn := by
      rw [Nat.shiftLeft_eq]
      ring
    have hbit := div_32768_eq_if insn hins
    show List.foldl readBinStep acc
      ((if insn &&& 0x8000 != 0 then "1" else "0")
        ++ binChars ((insn <<< 1) % 2 ^ 16) k).data = _
    cases hb : insn &&& 0x8000 != 0 with
    | false =>
      rw [hb] at hbit
      simp at hbit
      show List.foldl readBinStep acc
        (("0" : String) ++ binChars ((insn <<< 1) % 2 ^ 16) k).data = _
      rw [String.data_append, List.foldl_append,
        ih (by omega) _ hins', hsl]
      have hfold : List.foldl readBinStep acc ("0").data
          = 2 * acc + 0 := by rfl
      rw [hfold]
      exact fold_step_arith k insn acc 0 (by omega) hins hbit
    | true =>
      rw [hb] at hbit
      simp at hbit
      show List.foldl readBinStep acc
        (("1" : String) ++ binChars ((insn <<< 1) % 2 ^ 16) k).data = _
      rw [String.data_append, List.foldl_append,
        ih (by omega) _ hins', hsl]
      have hfold : List.foldl readBinStep acc ("1").data
          = 2 * acc + 1 := by rfl
      rw [hfold]
      exact fold_step_arith k insn acc 1 (by omega) hins hbit

/-! ## Case lemmas for `assemblyString` -/

lemma asm_br (i : Instruction) (h : i.name = 0) :
    i.assemblyString =
      "BR" ++ (if getBit i.instruction 11 then "n" else "")
        ++ (if getBit i.instruction 10 then "z" else "")
        ++ (if getBit i.instruction 9 then "p" else "")
        ++ spacesStr (3 - ((if getBit i.instruction 11 then 1 else 0)
          + (if getBit i.instruction 10 then 1 else 0)
          + (if getBit i.instruction 9 then 1 else 0)))
        ++ "  " ++ "[OFFSET "
        ++ (if sext (getBits i.instruction 8 0) 9 < 0 then
              "-" ++ toString (-sext (getBits i.instruction 8 0) 9)
            else "+" ++ toString (sext (getBits i.instruction 8 0) 9))
        ++ "]" := by
  unfold Instruction.assemblyString
  rw [h] <;> rfl

lemma asm_add (i : Instruction) (h : i.name = 1) :
    i.assemblyString =
      if getBit i.instruction 5 then
        "ADD    " ++ "R" ++ toString (getBits i.instruction 11 9)
          ++ " R" ++ toString (getBits i.instruction 8 6)
          ++ " #" ++ toString (sext (getBits i.instruction 4 0) 5)
      else
        "ADD    " ++ "R" ++ toString (getBits i.instruction 11 9)
          ++ " R" ++ toString (getBits i.instruction 8 6)
          ++ " R" ++ toString (getBits i.instruction 2 0) := by
  unfold Instruction.assemblyString
  rw [h] <;> rfl

lemma asm_and (i : Instruction) (h : i.name = 5) :
    i.assemblyString =
      if getBit i.instruction 5 then
        "AND    " ++ "R" ++ toString (getBits i.instruction 11 9)
          ++ " R" ++ toString (getBits i.instruction 8 6)
          ++ " #" ++ toString (sext (getBits i.instruction 4 0) 5)
      else
        "AND    " ++ "R" ++ toString (getBits i.instruction 11 9)
          ++ " R" ++ toString (getBits i.instruction 8 6)
          ++ " R" ++ toString (getBits i.instruction 2 0) := by
  unfold Instruction.assemblyString
  rw [h] <;> rfl

lemma asm_ld (i : Instruction) (h : i.name = 2) :
    i.assemblyString =
      "LD     " ++ "R" ++ toString (getBits i.instruction 11 9)
        ++ " [OFFSET "
        ++ (if sext (getBits i.instruction 8 0) 9 < 0 then
              "-" ++ toString (-sext (getBits i.instruction 8 0) 9)
            else "+" ++ toString (sext (getBits i.instruction 8 0) 9))
        ++ "]" := by
  unfold Instruction.assemblyString
  rw [h] <;> rfl

lemma asm_st (i : Instruction) (h : i.name = 3) :
    i.assemblyString =
      "ST     " ++ "R" ++ toString (getBits i.instruction 11 9)
        ++ " [OFFSET "
        ++ (if sext (getBits i.instruction 8 0) 9 < 0 then
              "-" ++ toString (-sext (getBits i.instruction 8 0) 9)
            else "+" ++ toString (sext (getBits i.instruction 8 0) 9))
        ++ "]" := by
  unfold Instruction.assemblyString
  rw [h] <;> rfl

lemma asm_ldi (i : Instruction) (h : i.name = 10) :
    i.assemblyString =
      "LDI    " ++ "R" ++ toString (getBits i.instruction 11 9)
        ++ " [OFFSET "
        ++ (if sext (getBits i.instruction 8 0) 9 < 0 then
              "-" ++ toString (-sext (getBits i.instruction 8 0) 9)
            else "+" ++ toString (sext (getBits i.instruction 8 0) 9))
        ++ "]" := by
  unfold Instruction.assemblyString
  rw [h] <;> rfl

lemma asm_sti (i : Instruction) (h : i.name = 11) :
    i.assemblyString =
      "STI    " ++ "R" ++ toString (getBits i.instruction 11 9)
        ++ " [OFFSET "
        ++ (if sext (getBits i.instruction 8 0) 9 < 0 then
              "-" ++ toString (-sext (getBits i.instruction 8 0) 9)
            else "+" ++ toString (sext (getBits i.instruction 8 0) 9))
        ++ "]" := by
  unfold Instruction.assemblyString
  rw [h] <;> rfl

lemma asm_lea (i : Instruction) (h : i.name = 14) :
    i.assemblyString =
      "LEA    " ++ "R" ++ toString (getBits i.instruction 11 9)
        ++ " [OFFSET "
        ++ (if sext (getBits i.instruction 8 0) 9 < 0 then
              "-" ++ toString (-sext (getBits i.instruction 8 0) 9)
            else "+" ++ toString (sext (getBits i.instruction 8 0) 9))
        ++ "]" := by
  unfold Instruction.assemblyString
  rw [h] <;> rfl

lemma asm_str (i : Instruction) (h : i.name = 7) :
    i.assemblyString =
      "STR    " ++ "R" ++ toString (getBits i.instruction 11 9)
        ++ " R" ++ toString (getBits i.instruction 8 6) ++ " #"
        ++ (if sext (getBits i.instruction 5 0) 6 < 0 then
              "-" ++ toString (-sext (getBits i.instruction 5 0) 6)
            else "+" ++ toString (sext (getBits i.instruction 5 0) 6)) := by
  unfold Instruction.assemblyString
  rw [h] <;> rfl

lemma asm_ldr (i : Instruction) (h : i.name = 6) :
    i.assemblyString =
      "LDR    " ++ "R" ++ toString (getBits i.instruction 11 9)
        ++ " R" ++ toString (getBits i.instruction 8 6) ++ " #"
        ++ (if sext (getBits i.instruction 5 0) 6 < 0 then
              "-" ++ toString (-sext (getBits i.instruction 5 0) 6)
            else "+" ++ toString (sext (getBits i.instruction 5 0) 6)) := by
  unfold Instruction.assemblyString
  rw [h] <;> rfl

lemma asm_not (i : Instruction) (h : i.name = 9) :
    i.assemblyString =
      "NOT    " ++ "R" ++ toString (getBits i.instruction 11 9)
        ++ " R" ++ toString (getBits i.instruction 8 6) := by
  unfold Instruction.assemblyString
  rw [h] <;> rfl

lemma asm_jsr (i : Instruction) (h : i.name = 4) :
    i.assemblyString =
      if getBit i.instruction 11 then
        "JSRR   " ++ " R" ++ toString (getBits i.instruction 8 6)
      else
        "JSR    " ++ "[OFFSET "
          ++ (if sext (getBits i.instruction 10 0) 11 < 0 then
                "-" ++ toString (-sext (getBits i.instruction 10 0) 11)
              else "+" ++ toString (sext (getBits i.instruction 10 0) 11))
          ++ "]" := by
  unfold Instruction.assemblyString
  rw [h]
  cases hj : getBit i.instruction 11 <;> rfl

lemma asm_trap (i : Instruction) (h : i.name = 15) :
    i.assemblyString =
      "TRAP   " ++ "x" ++ toHexU (getBits i.instruction 7 0) := by
  unfold Instruction.assemblyString
  rw [h] <;> rfl

lemma asm_ret (i : Instruction) (h : i.name = 12) :
    i.assemblyString = "RET" := by
  unfold Instruction.assemblyString
  rw [h] <;> rfl

lemma asm_rti (i : Instruction) (h : i.name = 8) :
    i.assemblyString = "RTI" := by
  unfold Instruction.assemblyString
  rw [h] <;> rfl

lemma asm_reserved (i : Instruction) (h : i.name = 13) :
    i.assemblyString = "[RESERVED]" := by
  unfold Instruction.assemblyString
  rw [h] <;> rfl

/-! ## First-character helpers -/

/-- The head of an appended string is the head of its nonempty left
part. -/
lemma append_head (s r : String) (c : Char) (h : s.data.head? = some c) :
    (s ++ r).data.head? = some c := by
  rw [String.data_append]
  cases hd : s.data with
  | nil => rw [hd] at h; simp at h
  | cons a l =>
    rw [hd] at h
    simp at h
    simp [h]

/-- Two strings with distinct head characters differ. -/
lemma ne_of_head_lit (s : String) (c : Char) (hs : s.data.head? = some c)
    (t : String) (ht : t.data.head? ≠ some c) : s ≠ t :=
  fun he => ht (he ▸ hs)

/-- The padding loop prints a replicated space character. -/
lemma spacesStr_eq_replicate : ∀ k,
    spacesStr k = String.mk (List.replicate k ' ') := by
  intro k
  induction k with
  | zero => rfl
  | succ k ih =>
    show " " ++ spacesStr k = _
    rw [ih]
    apply String.ext
    simp [List.replicate_succ]

/-- Transfer an opcode fact on the spec-side slice to the stored
`name` field. -/
lemma name_eq_of_shift (w k : Nat) (hw : w < 2 ^ 16) (h : w >>> 12 = k) :
    (Instruction.ofWord w).name = k := by
  rw [name_ofWord w hw]
  rw [Nat.shiftRight_eq_div_pow] at h
  exact h

/-- Lemma: `getBits` only reads the bits of its range. -/
lemma getBits_congr (w1 w2 f t : Nat) (hw1 : w1 < 2 ^ 16)
    (hw2 : w2 < 2 ^ 16) (ht : t ≤ f) (hf : f ≤ 15)
    (hagree : ∀ j, t ≤ j → j ≤ f → w1.testBit j = w2.testBit j) :
    getBits w1 f t = getBits w2 f t := by
  rw [getBits_eq w1 f t hw1 ht hf, getBits_eq w2 f t hw2 ht hf]
  apply Nat.eq_of_testBit_eq
  intro j
  rw [Nat.testBit_mod_two_pow, Nat.testBit_mod_two_pow,
    Nat.testBit_shiftRight, Nat.testBit_shiftRight]
  by_cases hj : j < f - t + 1
  · simp only [hj, decide_True, Bool.true_and]
    exact hagree (t + j) (by omega) (by omega)
  · simp [hj]

/-- Lemma: `getBit` only reads its one bit. -/
lemma getBit_congr (w1 w2 b : Nat) (hw1 : w1 < 2 ^ 16)
    (hw2 : w2 < 2 ^ 16) (h : w1.testBit b = w2.testBit b) :
    getBit w1 b = getBit w2 b := by
  unfold getBit
  rw [Nat.mod_eq_of_lt hw1, Nat.mod_eq_of_lt hw2]
  have e : ∀ w : Nat, ((w >>> b) &&& 1 != 0) = w.testBit b := by
    intro w
    rw [Nat.testBit_to_div_mod, Nat.shiftRight_eq_div_pow,
      Nat.and_one_is_mod]
    rcases Nat.mod_two_eq_zero_or_one (w / 2 ^ b) with h2 | h2 <;>
      rw [h2] <;> rfl
  rw [e w1, e w2, h]

/-- Lemma: `hexDigitU` emits an uppercase hexadecimal digit. -/
lemma hexDigitU_isUpper (n : Nat) (h : n < 16) :
    isUpperHexDigit (hexDigitU n) = true := by
  interval_cases n <;> decide

/-- Lemma: `readHexDigit` inverts `hexDigitU`. -/
lemma hexDigitU_read (n : Nat) (h : n < 16) :
    readHexDigit (hexDigitU n) = n := by
  interval_cases n <;> decide

end lc3

namespace lc3

/-! ## Claim theorems -/

/-- C3: for every 16-bit word `w` and bit positions `0 ≤ t ≤ f ≤ 15`,
`getBits w f t` is `(w >>> t) % 2 ^ (f - t + 1)`: bits `f` down to `t`,
right-justified and zero-extended. -/
theorem getBits_correct (w f t : Nat) (hw : w < 2 ^ 16) (ht : t ≤ f)
    (hf : f ≤ 15) : getBits w f t = (w >>> t) % 2 ^ (f - t + 1) :=
  getBits_eq w f t hw ht hf

theorem getBits_correct_witness :
    getBits 0x3456 11 9 = (0x3456 >>> 9) % 2 ^ (11 - 9 + 1) :=
  getBits_correct 0x3456 11 9 (by decide) (by decide) (by decide)

/-- C9: the opcode field computed at construction equals bits 15 down
to 12 of the word, a value in `[0, 15]`, and coincides with the in-range
extraction `getBits w 15 12` (the constructor passes `from = 16`, but
the truncated mask makes that equivalent). -/
theorem opcode_correct (w : Nat) (hw : w < 2 ^ 16) :
    (Instruction.ofWord w).name = (w >>> 12) % 2 ^ 4 ∧
    (Instruction.ofWord w).name < 16 ∧
    (Instruction.ofWord w).name = getBits w 15 12 := by
  have hn := name_ofWord w hw
  have hg : getBits w 15 12 = (w >>> 12) % 2 ^ (15 - 12 + 1) :=
    getBits_eq w 15 12 hw (by omega) (by omega)
  rw [Nat.shiftRight_eq_div_pow] at hg ⊢
  norm_num at hg ⊢
  omega

theorem opcode_correct_witness :
    (Instruction.ofWord 0xD123).name = (0xD123 >>> 12) % 2 ^ 4 ∧
    (Instruction.ofWord 0xD123).name < 16 ∧
    (Instruction.ofWord 0xD123).name = getBits 0xD123 15 12 :=
  opcode_correct 0xD123 (by decide)

/-- C4: for every `1 ≤ width ≤ 16` and every `width`-bit value `v`,
`sext v width` round-trips (masking the result back to `width` bits
reproduces `v`), is the non-negative value `v` itself when the sign bit
is clear, and is the negative value `v - 2 ^ width` (all bits above
`width - 1` set) when the sign bit is set. -/
theorem sext_correct (width v : Nat) (h1 : 1 ≤ width) (h2 : width ≤ 16)
    (hv : v < 2 ^ width) :
    sext v width % ((2 ^ width : Nat) : Int) = (v : Int) ∧
    (v >>> (width - 1) = 0 →
      0 ≤ sext v width ∧ sext v width = (v : Int)) ∧
    (v >>> (width - 1) ≠ 0 →
      sext v width < 0 ∧
      sext v width = (v : Int) - ((2 ^ width : Nat) : Int)) := by
  have hWpos : (0 : Nat) < 2 ^ width := Nat.pow_pos (by norm_num)
  have hsign : v >>> (width - 1) = 0 ↔ v < 2 ^ (width - 1) := by
    rw [Nat.shiftRight_eq_div_pow]
    exact Nat.div_eq_zero_iff (Nat.pow_pos (by norm_num))
  rcases lt_or_ge v (2 ^ (width - 1)) with hlt | hge
  · have heq := sext_nonneg_eq width v h2 hlt
    refine ⟨?_, fun _ => ⟨by rw [heq]; exact Int.ofNat_nonneg v, heq⟩,
      fun hne => absurd (hsign.mpr hlt) hne⟩
    rw [heq]
    exact Int.emod_eq_of_lt (Int.ofNat_nonneg v) (by exact_mod_cast hv)
  · have heq := sext_neg_eq width v h1 h2 hv hge
    have hneg : sext v width < 0 := by
      rw [heq]
      have : (v : Int) < ((2 ^ width : Nat) : Int) := by exact_mod_cast hv
      omega
    refine ⟨?_, fun h0 => absurd h0 (by
        rw [hsign]
        omega), fun _ => ⟨hneg, heq⟩⟩
    rw [heq, Int.sub_emod, Int.emod_self, sub_zero,
      Int.emod_emod_of_dvd _ (dvd_refl _)]
    exact Int.emod_eq_of_lt (Int.ofNat_nonneg v) (by exact_mod_cast hv)

theorem sext_correct_witness :
    sext 31 5 % ((2 ^ 5 : Nat) : Int) = (31 : Int) ∧
    ((31 : Nat) >>> (5 - 1) = 0 →
      0 ≤ sext 31 5 ∧ sext 31 5 = ((31 : Nat) : Int)) ∧
    ((31 : Nat) >>> (5 - 1) ≠ 0 →
      sext 31 5 < 0 ∧
      sext 31 5 = ((31 : Nat) : Int) - ((2 ^ 5 : Nat) : Int)) :=
  sext_correct 5 31 (by decide) (by decide) (by decide)

/-- C5: for every 16-bit word `w`, `binaryString` is a string of
exactly 16 characters, each `'0'` or `'1'`, and read as a base-2
numeral (most significant bit first) it equals `w`. -/
theorem binaryString_correct (w : Nat) (hw : w < 2 ^ 16) :
    (Instruction.ofWord w).binaryString.length = 16 ∧
    (∀ c ∈ (Instruction.ofWord w).binaryString.data,
      c = '0' ∨ c = '1') ∧
    readBin (Instruction.ofWord w).binaryString = w := by
  unfold Instruction.binaryString readBin
  rw [instruction_ofWord w hw]
  refine ⟨binChars_length 16 w, binChars_chars 16 w, ?_⟩
  have h := binChars_fold 16 (le_refl 16) w hw 0
  simpa using h

theorem binaryString_correct_witness :
    (Instruction.ofWord 0x3000).binaryString.length = 16 ∧
    (∀ c ∈ (Instruction.ofWord 0x3000).binaryString.data,
      c = '0' ∨ c = '1') ∧
    readBin (Instruction.ofWord 0x3000).binaryString = 0x3000 :=
  binaryString_correct 0x3000 (by decide)

/-- C6: for every 16-bit word `w`, `hexString` is a 5-character string:
an `'x'` followed by exactly four uppercase hexadecimal digits that,
read back in base 16, give `w` (zero-padded, e.g. `0x3000` renders as
`"x3000"`). -/
theorem hexString_correct (w : Nat) (hw : w < 2 ^ 16) :
    (Instruction.ofWord w).hexString.length = 5 ∧
    (Instruction.ofWord w).hexString.data.head? = some 'x' ∧
    (∀ c ∈ (Instruction.ofWord w).hexString.data.tail,
      isUpperHexDigit c = true) ∧
    (Instruction.ofWord w).hexString.data.tail.foldl
      (fun a c => 16 * a + readHexDigit c) 0 = w := by
  have h16 : (2 : Nat) ^ 16 = 65536 := by norm_num
  unfold Instruction.hexString
  rw [instruction_ofWord w hw]
  refine ⟨rfl, rfl, ?_, ?_⟩
  · intro c hc
    simp only [List.tail_cons, List.mem_cons, List.not_mem_nil,
      or_false] at hc
    rcases hc with hc | hc | hc | hc <;> rw [hc] <;>
      exact hexDigitU_isUpper _ (by omega)
  · show 16 * (16 * (16 * (16 * 0
        + readHexDigit (hexDigitU (w / 4096 % 16)))
        + readHexDigit (hexDigitU (w / 256 % 16)))
        + readHexDigit (hexDigitU (w / 16 % 16)))
        + readHexDigit (hexDigitU (w % 16)) = w
    rw [hexDigitU_read _ (by omega), hexDigitU_read _ (by omega),
      hexDigitU_read _ (by omega), hexDigitU_read _ (by omega)]
    omega

/-- C2: `assemblyString` is total over the 16-bit domain — every word
yields a (nonempty) output line — and the output is the literal
`"[RESERVED]"` exactly when the 4-bit opcode (bits 15:12) is 13. -/
theorem assembly_total (w : Nat) (hw : w < 2 ^ 16) :
    (Instruction.ofWord w).assemblyString ≠ "" ∧
    ((Instruction.ofWord w).assemblyString = "[RESERVED]" ↔
      w >>> 12 = 13) := by
  have hn := name_ofWord w hw
  have hi := instruction_ofWord w hw
  have h16 : (2 : Nat) ^ 16 = 65536 := by norm_num
  have hsr : w >>> 12 = w / 4096 := by
    rw [Nat.shiftRight_eq_div_pow]
  rw [hsr]
  have hd : w / 4096 = 0 ∨ w / 4096 = 1 ∨ w / 4096 = 2 ∨ w / 4096 = 3 ∨
      w / 4096 = 4 ∨ w / 4096 = 5 ∨ w / 4096 = 6 ∨ w / 4096 = 7 ∨
      w / 4096 = 8 ∨ w / 4096 = 9 ∨ w / 4096 = 10 ∨ w / 4096 = 11 ∨
      w / 4096 = 12 ∨ w / 4096 = 13 ∨ w / 4096 = 14 ∨ w / 4096 = 15 := by
    omega
  rcases hd with h | h | h | h | h | h | h | h | h | h | h | h | h | h |
    h | h <;> rw [h] at hn
  · rw [asm_br _ hn]
    refine ⟨ne_of_head_lit _ 'B' ?_ _ (by decide),
      iff_of_false (ne_of_head_lit _ 'B' ?_ _ (by decide)) (by omega)⟩ <;>
      rfl
  · rw [asm_add _ hn, hi]
    cases getBit w 5 <;>
      refine ⟨ne_of_head_lit _ 'A' ?_ _ (by decide),
        iff_of_false (ne_of_head_lit _ 'A' ?_ _ (by decide)) (by omega)⟩ <;>
        rfl
  · rw [asm_ld _ hn]
    refine ⟨ne_of_head_lit _ 'L' ?_ _ (by decide),
      iff_of_false (ne_of_head_lit _ 'L' ?_ _ (by decide)) (by omega)⟩ <;>
      rfl
  · rw [asm_st _ hn]
    refine ⟨ne_of_head_lit _ 'S' ?_ _ (by decide),
      iff_of_false (ne_of_head_lit _ 'S' ?_ _ (by decide)) (by omega)⟩ <;>
      rfl
  · rw [asm_jsr _ hn, hi]
    cases getBit w 11 <;>
      refine ⟨ne_of_head_lit _ 'J' ?_ _ (by decide),
        iff_of_false (ne_of_head_lit _ 'J' ?_ _ (by decide)) (by omega)⟩ <;>
        rfl
  · rw [asm_and _ hn, hi]
    cases getBit w 5 <;>
      refine ⟨ne_of_head_lit _ 'A' ?_ _ (by decide),
        iff_of_false (ne_of_head_lit _ 'A' ?_ _ (by decide)) (by omega)⟩ <;>
        rfl
  · rw [asm_ldr _ hn]
    refine ⟨ne_of_head_lit _ 'L' ?_ _ (by decide),
      iff_of_false (ne_of_head_lit _ 'L' ?_ _ (by decide)) (by omega)⟩ <;>
      rfl
  · rw [asm_str _ hn]
    refine ⟨ne_of_head_lit _ 'S' ?_ _ (by decide),
      iff_of_false (ne_of_head_lit _ 'S' ?_ _ (by decide)) (by omega)⟩ <;>
      rfl
  · rw [asm_rti _ hn]
    exact ⟨by decide, iff_of_false (by decide) (by omega)⟩
  · rw [asm_not _ hn]
    refine ⟨ne_of_head_lit _ 'N' ?_ _ (by decide),
      iff_of_false (ne_of_head_lit _ 'N' ?_ _ (by decide)) (by omega)⟩ <;>
      rfl
  · rw [asm_ldi _ hn]
    refine ⟨ne_of_head_lit _ 'L' ?_ _ (by decide),
      iff_of_false (ne_of_head_lit _ 'L' ?_ _ (by decide)) (by omega)⟩ <;>
      rfl
  · rw [asm_sti _ hn]
    refine ⟨ne_of_head_lit _ 'S' ?_ _ (by decide),
      iff_of_false (ne_of_head_lit _ 'S' ?_ _ (by decide)) (by omega)⟩ <;>
      rfl
  · rw [asm_ret _ hn]
    exact ⟨by decide, iff_of_false (by decide) (by omega)⟩
  · rw [asm_reserved _ hn]
    exact ⟨by decide, iff_of_true rfl (by omega)⟩
  · rw [asm_lea _ hn]
    refine ⟨ne_of_head_lit _ 'L' ?_ _ (by decide),
      iff_of_false (ne_of_head_lit _ 'L' ?_ _ (by decide)) (by omega)⟩ <;>
      rfl
  · rw [asm_trap _ hn]
    refine ⟨ne_of_head_lit _ 'T' ?_ _ (by decide),
      iff_of_false (ne_of_head_lit _ 'T' ?_ _ (by decide)) (by omega)⟩ <;>
      rfl

theorem assembly_total_witness :
    (Instruction.ofWord 0xD000).assemblyString ≠ "" ∧
    ((Instruction.ofWord 0xD000).assemblyString = "[RESERVED]" ↔
      0xD000 >>> 12 = 13) :=
  assembly_total 0xD000 (by decide)

theorem hexString_correct_witness :
    (Instruction.ofWord 0x3000).hexString.length = 5 ∧
    (Instruction.ofWord 0x3000).hexString.data.head? = some 'x' ∧
    (∀ c ∈ (Instruction.ofWord 0x3000).hexString.data.tail,
      isUpperHexDigit c = true) ∧
    (Instruction.ofWord 0x3000).hexString.data.tail.foldl
      (fun a c => 16 * a + readHexDigit c) 0 = 0x3000 :=
  hexString_correct 0x3000 (by decide)

/-- C7: a BR word renders as `BR`, the present flag letters in order
`n`, `z`, `p`, one space per absent flag (so the flag-plus-padding
region is exactly three characters), two more spaces, then
`[OFFSET ±N]` with the explicit-sign rendering of the 9-bit signed
offset. -/
theorem br_rendering (w : Nat) (hw : w < 2 ^ 16) (h0 : w >>> 12 = 0) :
    (Instruction.ofWord w).assemblyString =
      "BR" ++ (if getBit w 11 then "n" else "")
        ++ (if getBit w 10 then "z" else "")
        ++ (if getBit w 9 then "p" else "")
        ++ String.mk (List.replicate
            ((if getBit w 11 then 0 else 1)
              + (if getBit w 10 then 0 else 1)
              + (if getBit w 9 then 0 else 1)) ' ')
        ++ "  " ++ "[OFFSET "
        ++ signRenderSpec (sext (getBits w 8 0) 9) ++ "]" := by
  have hn := name_eq_of_shift w 0 hw h0
  rw [asm_br _ hn, instruction_ofWord w hw, spacesStr_eq_replicate]
  have hsign : (if sext (getBits w 8 0) 9 < 0 then
      "-" ++ toString (-sext (getBits w 8 0) 9)
      else "+" ++ toString (sext (getBits w 8 0) 9))
      = signRenderSpec (sext (getBits w 8 0) 9) := rfl
  rw [hsign]
  have hcount : 3 - ((if getBit w 11 then 1 else 0)
      + (if getBit w 10 then 1 else 0) + (if getBit w 9 then 1 else 0))
      = (if getBit w 11 then 0 else 1) + (if getBit w 10 then 0 else 1)
        + (if getBit w 9 then 0 else 1) := by
    cases getBit w 11 <;> cases getBit w 10 <;> cases getBit w 9 <;> rfl
  rw [hcount]

theorem br_rendering_witness :
    (Instruction.ofWord 0).assemblyString = "BR     [OFFSET +0]" :=
  (br_rendering 0 (by decide) (by decide)).trans (by decide)

/-- C8: evidence of the JSRR spacing slip — the code emits four spaces
between `JSRR` and the base register (the mnemonic literal `"JSRR   "`
followed by `" R"`), where its own example comment and the spec show
three. -/
theorem jsrr_spacing_eval :
    (Instruction.ofWord 0x4800).assemblyString = "JSRR    R0" ∧
    (Instruction.ofWord 0x4800).assemblyString ≠ "JSRR   R0" := by
  constructor <;> decide

/-- C1 counterexample: an ADD immediate of value zero is rendered
`#0`, not `#+0` — the explicit-sign rule does not apply to ADD/AND
immediates. -/
theorem addImm_counterexample :
    (Instruction.ofWord 0x1020).assemblyString = "ADD    R0 R0 #0" ∧
    (Instruction.ofWord 0x1020).assemblyString ≠ "ADD    R0 R0 #+0" := by
  constructor <;> decide

/-- C1 (amended): every offset rendered by `assemblyString` — BR,
LD/LDI/ST/STI/LEA, JSR, and LDR/STR — follows the explicit-sign rule
(`-` plus magnitude when negative, `+` plus value when non-negative,
zero as `+0`), while ADD/AND immediates are rendered as a plain decimal
after `#` with no sign for non-negative values. -/
theorem sign_rendering_amended (w : Nat) (hw : w < 2 ^ 16) :
    (w >>> 12 = 0 → ∃ s, (Instruction.ofWord w).assemblyString
      = s ++ "[OFFSET " ++ signRenderSpec (sext (getBits w 8 0) 9)
        ++ "]") ∧
    (w >>> 12 = 2 ∨ w >>> 12 = 3 ∨ w >>> 12 = 10 ∨ w >>> 12 = 11 ∨
      w >>> 12 = 14 → ∃ s, (Instruction.ofWord w).assemblyString
      = s ++ " [OFFSET " ++ signRenderSpec (sext (getBits w 8 0) 9)
        ++ "]") ∧
    (w >>> 12 = 4 → getBit w 11 = false →
      (Instruction.ofWord w).assemblyString
      = "JSR    " ++ "[OFFSET "
        ++ signRenderSpec (sext (getBits w 10 0) 11) ++ "]") ∧
    (w >>> 12 = 6 ∨ w >>> 12 = 7 →
      ∃ s, (Instruction.ofWord w).assemblyString
      = s ++ " #" ++ signRenderSpec (sext (getBits w 5 0) 6)) ∧
    ((w >>> 12 = 1 ∨ w >>> 12 = 5) → getBit w 5 = true →
      ∃ s, (Instruction.ofWord w).assemblyString
      = s ++ " #" ++ toString (sext (getBits w 4 0) 5)) ∧
    (∀ v : Int, v < 0 → signRenderSpec v = "-" ++ toString (-v)) ∧
    (∀ v : Int, 0 ≤ v → signRenderSpec v = "+" ++ toString v) ∧
    signRenderSpec 0 = "+0" ∧ toString (0 : Int) = "0" := by
  have hi := instruction_ofWord w hw
  refine ⟨?_, ?_, ?_, ?_, ?_, ?_, ?_, by decide, by decide⟩
  · intro h0
    have hn := name_eq_of_shift w 0 hw h0
    exact ⟨_, by rw [asm_br _ hn, hi]; rfl⟩
  · intro hc
    rcases hc with h0 | h0 | h0 | h0 | h0
    · have hn := name_eq_of_shift w 2 hw h0
      exact ⟨_, by rw [asm_ld _ hn, hi]; rfl⟩
    · have hn := name_eq_of_shift w 3 hw h0
      exact ⟨_, by rw [asm_st _ hn, hi]; rfl⟩
    · have hn := name_eq_of_shift w 10 hw h0
      exact ⟨_, by rw [asm_ldi _ hn, hi]; rfl⟩
    · have hn := name_eq_of_shift w 11 hw h0
      exact ⟨_, by rw [asm_sti _ hn, hi]; rfl⟩
    · have hn := name_eq_of_shift w 14 hw h0
      exact ⟨_, by rw [asm_lea _ hn, hi]; rfl⟩
  · intro h0 hb
    have hn := name_eq_of_shift w 4 hw h0
    rw [asm_jsr _ hn, hi, hb]
    rfl
  · intro hc
    rcases hc with h0 | h0
    · have hn := name_eq_of_shift w 6 hw h0
      exact ⟨_, by rw [asm_ldr _ hn, hi]; rfl⟩
    · have hn := name_eq_of_shift w 7 hw h0
      exact ⟨_, by rw [asm_str _ hn, hi]; rfl⟩
  · intro hc hb
    rcases hc with h0 | h0
    · have hn := name_eq_of_shift w 1 hw h0
      exact ⟨_, by rw [asm_add _ hn, hi, hb]; rfl⟩
    · have hn := name_eq_of_shift w 5 hw h0
      exact ⟨_, by rw [asm_and _ hn, hi, hb]; rfl⟩
  · intro v hv
    unfold signRenderSpec
    rw [if_pos hv]
  · intro v hv
    unfold signRenderSpec
    rw [if_neg (not_lt.mpr hv)]

theorem sign_rendering_amended_witness :
    ((0x0E01 : Nat) >>> 12 = 0 → ∃ s,
      (Instruction.ofWord 0x0E01).assemblyString
      = s ++ "[OFFSET "
        ++ signRenderSpec (sext (getBits 0x0E01 8 0) 9) ++ "]") ∧
    ((0x0E01 : Nat) >>> 12 = 2 ∨ (0x0E01 : Nat) >>> 12 = 3 ∨
      (0x0E01 : Nat) >>> 12 = 10 ∨ (0x0E01 : Nat) >>> 12 = 11 ∨
      (0x0E01 : Nat) >>> 12 = 14 → ∃ s,
      (Instruction.ofWord 0x0E01).assemblyString
      = s ++ " [OFFSET "
        ++ signRenderSpec (sext (getBits 0x0E01 8 0) 9) ++ "]") ∧
    ((0x0E01 : Nat) >>> 12 = 4 → getBit 0x0E01 11 = false →
      (Instruction.ofWord 0x0E01).assemblyString
      = "JSR    " ++ "[OFFSET "
        ++ signRenderSpec (sext (getBits 0x0E01 10 0) 11) ++ "]") ∧
    ((0x0E01 : Nat) >>> 12 = 6 ∨ (0x0E01 : Nat) >>> 12 = 7 →
      ∃ s, (Instruction.ofWord 0x0E01).assemblyString
      = s ++ " #" ++ signRenderSpec (sext (getBits 0x0E01 5 0) 6)) ∧
    (((0x0E01 : Nat) >>> 12 = 1 ∨ (0x0E01 : Nat) >>> 12 = 5) →
      getBit 0x0E01 5 = true →
      ∃ s, (Instruction.ofWord 0x0E01).assemblyString
      = s ++ " #" ++ toString (sext (getBits 0x0E01 4 0) 5)) ∧
    (∀ v : Int, v < 0 → signRenderSpec v = "-" ++ toString (-v)) ∧
    (∀ v : Int, 0 ≤ v → signRenderSpec v = "+" ++ toString v) ∧
    signRenderSpec 0 = "+0" ∧ toString (0 : Int) = "0" :=
  sign_rendering_amended 0x0E01 (by decide)

/-- C10: `assemblyString` depends only on the operand fields its opcode
class renders: RET, RTI and the reserved opcode render fixed literals
whatever their low bits, and two ADD/AND register-mode words (bit 5
clear) that agree everywhere outside bits 4:3 render identically. -/
theorem operand_noninterference (w1 w2 : Nat) (hw1 : w1 < 2 ^ 16)
    (hw2 : w2 < 2 ^ 16) :
    ((Instruction.ofWord w1).name = 12 →
      (Instruction.ofWord w1).assemblyString = "RET") ∧
    ((Instruction.ofWord w1).name = 8 →
      (Instruction.ofWord w1).assemblyString = "RTI") ∧
    ((Instruction.ofWord w1).name = 13 →
      (Instruction.ofWord w1).assemblyString = "[RESERVED]") ∧
    (((Instruction.ofWord w1).name = 1 ∨ (Instruction.ofWord w1).name = 5)
      → getBit w1 5 = false
      → (∀ j, j ≠ 3 → j ≠ 4 → w1.testBit j = w2.testBit j)
      → (Instruction.ofWord w1).assemblyString
          = (Instruction.ofWord w2).assemblyString) := by
  refine ⟨asm_ret _, asm_rti _, asm_reserved _, ?_⟩
  intro hname hb5 hagree
  have h16 : (2 : Nat) ^ 16 = 65536 := by norm_num
  have hd : getBits w1 11 9 = getBits w2 11 9 :=
    getBits_congr w1 w2 11 9 hw1 hw2 (by omega) (by omega)
      (fun j ha hb => hagree j (by omega) (by omega))
  have hs1 : getBits w1 8 6 = getBits w2 8 6 :=
    getBits_congr w1 w2 8 6 hw1 hw2 (by omega) (by omega)
      (fun j ha hb => hagree j (by omega) (by omega))
  have hs2 : getBits w1 2 0 = getBits w2 2 0 :=
    getBits_congr w1 w2 2 0 hw1 hw2 (by omega) (by omega)
      (fun j ha hb => hagree j (by omega) (by omega))
  have hb : getBit w1 5 = getBit w2 5 :=
    getBit_congr w1 w2 5 hw1 hw2 (hagree 5 (by omega) (by omega))
  have hb5x : getBit w2 5 = false := by rw [← hb]; exact hb5
  have hnm : (Instruction.ofWord w1).name = (Instruction.ofWord w2).name := by
    rw [name_ofWord w1 hw1, name_ofWord w2 hw2]
    have h1512 := getBits_congr w1 w2 15 12 hw1 hw2 (by omega) (by omega)
      (fun j ha hb2 => hagree j (by omega) (by omega))
    rw [getBits_div_mod w1 15 12 hw1 (by omega) (by omega),
      getBits_div_mod w2 15 12 hw2 (by omega) (by omega)] at h1512
    norm_num at h1512
    omega
  have hi1 := instruction_ofWord w1 hw1
  have hi2 := instruction_ofWord w2 hw2
  rcases hname with h1 | h1
  · have h2 : (Instruction.ofWord w2).name = 1 := by rw [← hnm]; exact h1
    rw [asm_add _ h1, asm_add _ h2, hi1, hi2, hb5, hb5x]
    simp only [Bool.false_eq_true, if_false]
    rw [hd, hs1, hs2]
  · have h2 : (Instruction.ofWord w2).name = 5 := by rw [← hnm]; exact h1
    rw [asm_and _ h1, asm_and _ h2, hi1, hi2, hb5, hb5x]
    simp only [Bool.false_eq_true, if_false]
    rw [hd, hs1, hs2]

theorem operand_noninterference_witness :
    ((Instruction.ofWord 0x1000).name = 12 →
      (Instruction.ofWord 0x1000).assemblyString = "RET") ∧
    ((Instruction.ofWord 0x1000).name = 8 →
      (Instruction.ofWord 0x1000).assemblyString = "RTI") ∧
    ((Instruction.ofWord 0x1000).name = 13 →
      (Instruction.ofWord 0x1000).assemblyString = "[RESERVED]") ∧
    (((Instruction.ofWord 0x1000).name = 1 ∨
        (Instruction.ofWord 0x1000).name = 5)
      → getBit 0x1000 5 = false
      → (∀ j, j ≠ 3 → j ≠ 4 →
          Nat.testBit 0x1000 j = Nat.testBit 0x1018 j)
      → (Instruction.ofWord 0x1000).assemblyString
          = (Instruction.ofWord 0x1018).assemblyString) :=
  operand_noninterference 0x1000 0x1018 (by decide) (by decide)

end lc3
